import Mathlib

/-!
Verification development for the bhejo peer-to-peer file transfer system.

The development shallowly embeds the two core subsystems:
* the chunked transfer protocol engine of `public/webrtc.js`
  (`WebRTCManager.sendFileChunks`, `handleChunkWithSequence`,
  `handleFileMetadata`, `handleFileComplete`), and
* the rendezvous/signaling broker of `server.js`
  (`handleJoin`, `handleSignaling`, the close handler).

File bytes are modelled as `List Nat`, the SDP payloads of offer/answer/ICE
frames as opaque `Nat` values, and the reliable ordered data channel as a
list of frames processed in order.
-/

/-- `CHUNK_SIZE = 64 * 1024` from webrtc.js. -/
def CHUNK_SIZE : Nat := 65536

/-- Association-list model of a JS `Map` keyed by `Nat`: `set` replaces the
binding if the key is present, otherwise appends (JS Maps keep insertion
order). -/
def assocSet {α : Type} (m : List (Nat × α)) (k : Nat) (v : α) : List (Nat × α) :=
  match m with
  | [] => [(k, v)]
  | kv :: rest => if kv.1 = k then (k, v) :: rest else kv :: assocSet rest k v

/-- `Map.get`: first binding of the key, if any. -/
def assocGet {α : Type} : List (Nat × α) → Nat → Option α
  | [], _ => none
  | kv :: rest, k => if kv.1 = k then some kv.2 else assocGet rest k

/-- JS `Set.add`: append the element if it is not already present
(insertion order preserved). -/
def setAdd (s : List Nat) (i : Nat) : List Nat :=
  if i ∈ s then s else s ++ [i]

/-- `Math.ceil(size / CHUNK_SIZE)` on naturals. -/
def totalChunksOf (size : Nat) : Nat := (size + CHUNK_SIZE - 1) / CHUNK_SIZE

/-- Little-endian 4-byte encoding used by `DataView.setUint32(..., true)`. -/
def u32le (n : Nat) : List Nat :=
  [n % 256, n / 256 % 256, n / 65536 % 256, n / 16777216 % 256]

/-- The binary layout of a `0x01` data-chunk frame built in `sendFileChunks`:
type byte `0x01`, then `chunk_index`, `total_chunks`, `data_length` as
little-endian u32, then the payload. -/
def encodeChunkFrame (index total : Nat) (data : List Nat) : List Nat :=
  1 :: (u32le index ++ u32le total ++ u32le data.length ++ data)

/-- The metadata recorded from a `file-metadata` frame (`this.currentFile`);
`mime_type` and `last_modified` play no role in reassembly and are omitted. -/
structure RFile where
  name : String
  size : Nat
deriving DecidableEq, Repr

/-- Receiver-side transfer state of `WebRTCManager` (the fields touched by
the chunk/metadata/complete handlers). -/
structure Receiver where
  currentFile : Option RFile
  chunkMap : List (Nat × List Nat)
  receivedChunkIndices : List Nat
  receivedChunks : List (List Nat)
  expectedChunkCount : Nat
  bytesTransferred : Nat
deriving DecidableEq, Repr

/-- Fresh receiver (constructor state). -/
def Receiver.init : Receiver := ⟨none, [], [], [], 0, 0⟩

/-- `WebRTCManager.handleFileMetadata`: allocate fresh per-file state. -/
def handleFileMetadata (_st : Receiver) (name : String) (size : Nat) : Receiver :=
  { currentFile := some ⟨name, size⟩
    chunkMap := []
    receivedChunkIndices := []
    receivedChunks := []
    expectedChunkCount := totalChunksOf size
    bytesTransferred := 0 }

/-- `WebRTCManager.handleChunkWithSequence`.  Returns the new state and the
`chunk-ack` index sent, if any.  A `u32` index is never negative, so the
source's `index < 0` test is vacuous; `index >= totalChunks` drops the frame
without an ack; a duplicate index re-sends the ack and drops the payload. -/
def handleChunkWithSequence (st : Receiver) (index total : Nat) (data : List Nat) :
    Receiver × Option Nat :=
  match st.currentFile with
  | none => (st, none)
  | some _ =>
    if total ≤ index then (st, none)
    else if index ∈ st.receivedChunkIndices then (st, some index)
    else
      ({ st with
          chunkMap := assocSet st.chunkMap index data
          receivedChunkIndices := setAdd st.receivedChunkIndices index
          bytesTransferred := st.bytesTransferred + data.length },
        some index)

/-- Placeholder size for a missing chunk in `handleFileComplete`:
`i === expectedChunks - 1 ? (size % CHUNK_SIZE || CHUNK_SIZE) : CHUNK_SIZE`
(`||` falls back to `CHUNK_SIZE` when the remainder is `0`). -/
def placeholderLen (size expected i : Nat) : Nat :=
  if i = expected - 1 then
    (if size % CHUNK_SIZE = 0 then CHUNK_SIZE else size % CHUNK_SIZE)
  else CHUNK_SIZE

/-- The sequenced-protocol reassembly loop of `handleFileComplete`: for each
index below `expected` take the stored chunk, or a zero-filled placeholder of
the expected length for that position. -/
def reassembleChunks (m : List (Nat × List Nat)) (size expected : Nat) : List (List Nat) :=
  (List.range expected).map (fun i =>
    match assocGet m i with
    | some c => c
    | none => List.replicate (placeholderLen size expected i) 0)

/-- `WebRTCManager.handleFileComplete`.  Returns the new state and, when a
file was in flight, the reassembled artifact bytes together with the flag
telling whether a completion error was surfaced through `onError`
(`receivedChunkCount < expectedChunks`).  The JS expression
`completeData?.totalChunks || this.expectedChunkCount` falls back when the
field is absent or `0` (falsy). -/
def handleFileComplete (st : Receiver) (totalChunksField : Option Nat) :
    Receiver × Option (List Nat × Bool) :=
  match st.currentFile with
  | none => (st, none)
  | some f =>
    let expected := match totalChunksField with
      | some n => if n = 0 then st.expectedChunkCount else n
      | none => st.expectedChunkCount
    let receivedChunkCount :=
      if 0 < st.chunkMap.length then st.chunkMap.length else st.receivedChunks.length
    let errored := receivedChunkCount < expected
    let pieces :=
      if 0 < st.chunkMap.length then reassembleChunks st.chunkMap f.size expected
      else st.receivedChunks
    ({ st with
        currentFile := none
        chunkMap := []
        receivedChunkIndices := []
        receivedChunks := []
        expectedChunkCount := 0 },
      some (pieces.flatten, errored))

/-- Data-channel frames, abstracting the wire format of §4.2: a JSON
`file-metadata`, a binary `0x01` chunk (its byte layout is
`encodeChunkFrame`), and a JSON `file-complete` (the optional checksum does
not influence reassembly and is omitted). -/
inductive Frame where
  | metadata (name : String) (size : Nat)
  | chunk (index total : Nat) (data : List Nat)
  | complete (total : Option Nat)
deriving DecidableEq, Repr

/-- One incoming data-channel message on the receiver
(`handleDataChannelMessage` dispatching to the three handlers). -/
def recvFrame (st : Receiver) (f : Frame) : Receiver × Option (List Nat × Bool) :=
  match f with
  | .metadata n s => (handleFileMetadata st n s, none)
  | .chunk i t d => ((handleChunkWithSequence st i t d).1, none)
  | .complete tc => handleFileComplete st tc

/-- Feed a list of frames in order; collect the produced artifacts. -/
def recvRun : Receiver → List Frame → Receiver × List (List Nat × Bool)
  | st, [] => (st, [])
  | st, f :: fs =>
    let r := recvFrame st f
    let rest := recvRun r.1 fs
    (rest.1, r.2.toList ++ rest.2)

/-- The read/send loop of `sendFileChunks`: read `file.slice(offset,
offset + CHUNK_SIZE)`, emit it as a `0x01` frame, advance `offset` by
`CHUNK_SIZE`, and continue while `offset < file.size`; after the last chunk
emit `file-complete`.  The first read is unconditional, so even a zero-byte
file produces one (empty) chunk frame. -/
def sendLoop (b : List Nat) (total offset idx : Nat) : List Frame :=
  let c := (b.drop offset).take CHUNK_SIZE
  if offset + CHUNK_SIZE < b.length then
    Frame.chunk idx total c :: sendLoop b total (offset + CHUNK_SIZE) (idx + 1)
  else
    [Frame.chunk idx total c, Frame.complete (some total)]
termination_by b.length - offset
decreasing_by
  unfold CHUNK_SIZE at *
  omega

/-- `WebRTCManager.sendFile`: the metadata frame followed by the chunk loop
with `totalChunks = Math.ceil(file.size / CHUNK_SIZE)`. -/
def senderFrames (name : String) (b : List Nat) : List Frame :=
  Frame.metadata name b.length :: sendLoop b (totalChunksOf b.length) 0 0

/-- Backpressure state of the `sendFileChunks` loop over a channel that
buffers indefinitely: the current read `offset` and the channel's
outbound buffered-bytes counter (`dataChannel.bufferedAmount`). -/
structure SendState where
  offset : Nat
  buffered : Nat
deriving DecidableEq, Repr

/-- Environment/loop events for the backpressure model: `tick` runs one
`reader.onload` body, `drain n` lets the transport transmit `n` buffered
bytes. -/
inductive ChanEvent where
  | tick
  | drain (n : Nat)
deriving DecidableEq, Repr

/-- One `reader.onload` execution of `sendFileChunks` for a file of
`size` bytes: while the transfer is unfinished (`offset < size`), if
`bufferedAmount > 1024 * 1024` defer (re-read the same slice later,
nothing advances); otherwise send the framed chunk — the whole
`encodeChunkFrame` (13-byte header plus payload) is enqueued on the
channel — and advance `offset` by `CHUNK_SIZE`. -/
def senderTick (size : Nat) (s : SendState) : SendState :=
  if s.offset < size then
    if 1024 * 1024 < s.buffered then s
    else
      { offset := s.offset + CHUNK_SIZE
        buffered := s.buffered + (13 + min CHUNK_SIZE (size - s.offset)) }
  else s

/-- Step of the backpressure model. -/
def chanStep (size : Nat) (s : SendState) (e : ChanEvent) : SendState :=
  match e with
  | .tick => senderTick size s
  | .drain n => { s with buffered := s.buffered - n }

/-- Run the chunk loop from its start (`offset = 0`, empty buffer) under a
schedule of loop ticks and transport drains. -/
def chanRun (size : Nat) (evs : List ChanEvent) : SendState :=
  evs.foldl (chanStep size) ⟨0, 0⟩

/-- One attached signaling session of the broker: the transport's
writability (`ws.readyState === OPEN`) and the connection-scoped
`currentRoom` variable of server.js. -/
structure Session where
  writable : Bool
  currentRoom : Option String
deriving DecidableEq, Repr

/-- A room record of server.js: `peers`, the `peerIds` map, and the two
pending handshake slots.  `createdAt` only feeds the expiry sweep, which is
outside the claims, and is omitted. -/
structure Room where
  peers : List Nat
  peerIds : List (Nat × String)
  pendingOffer : Option Nat
  pendingAnswer : Option Nat
deriving DecidableEq, Repr

/-- Broker state: the `rooms` map and the set of live connections with
their per-connection state. -/
structure Broker where
  rooms : String → Option Room
  sessions : Nat → Option Session

/-- Outbound signaling messages (`ws.send` payloads) relevant to the
claims. -/
inductive SMsg where
  | connected
  | joined (roomId : String) (peerId : Option String) (role : String) (peerCount : Option Nat)
  | offer (payload : Nat)
  | answer (payload : Nat)
  | ice (payload : Nat)
  | error (message : String)
  | peerDisconnected
deriving DecidableEq, Repr

/-- Inbound events at the broker: a new connection, a `join`/`offer`/
`answer`/`ice-candidate` frame from a connected session, a transport close,
and the environment toggling a transport's writability (modelling a
half-open socket whose close event has not fired yet).  `gen` is the value
returned by `generateRoomCode()` (random, so an oracle input). -/
inductive Event where
  | connect (sid : Nat)
  | join (sid : Nat) (createNew : Bool) (roomId : Option String) (gen : String)
  | offer (sid : Nat) (payload : Nat)
  | answer (sid : Nat) (payload : Nat)
  | ice (sid : Nat) (payload : Nat)
  | close (sid : Nat)
  | setWritable (sid : Nat) (w : Bool)
deriving DecidableEq, Repr

/-- Update one room binding. -/
def setRoom (B : Broker) (c : String) (r : Option Room) : Broker :=
  { B with rooms := fun c2 => if c2 = c then r else B.rooms c2 }

/-- Update one session binding. -/
def setSession (B : Broker) (sid : Nat) (s : Option Session) : Broker :=
  { B with sessions := fun sid2 => if sid2 = sid then s else B.sessions sid2 }

/-- `ws.send` to a session: delivered only when the transport is open
(a send on a non-open socket delivers nothing). -/
def emitTo (B : Broker) (sid : Nat) (m : SMsg) : List (Nat × SMsg) :=
  match B.sessions sid with
  | some s => if s.writable then [(sid, m)] else []
  | none => []

/-- The `joined` broadcast of `handleJoin` after a peer joins an existing
room: each open peer, by position `i`, gets
`role = index === 0 ? 'sender' : 'receiver'` and the new `peerCount`
(`count`). -/
def joinedBroadcast (B : Broker) (rid : String) (pids : List (Nat × String))
    (count : Nat) : Nat → List Nat → List (Nat × SMsg)
  | _, [] => []
  | i, p :: rest =>
    (match B.sessions p with
     | some s =>
       if s.writable then
         [(p, SMsg.joined rid (assocGet pids p)
             (if i = 0 then "sender" else "receiver") (some count))]
       else []
     | none => []) ++ joinedBroadcast B rid pids count (i + 1) rest

/-- The full-room error text of server.js (with `MAX_ROOM_SIZE = 2`). -/
def roomFullMsg : String :=
  "Room is full (2 peers maximum). This is a peer-to-peer transfer, so only one sender and one receiver can be in a room."

/-- `handleJoin` of server.js.  `createNew` installs the session as the
sole peer of a room keyed by the freshly generated code `gen` — the source
calls `generateRoomCode()` once and `rooms.set(newRoomId, ...)` with no
collision check.  Joining an existing room is refused with an error when
`room.peers.length >= MAX_ROOM_SIZE`; otherwise the session is appended,
both peers get `joined`, and a pending offer is delivered to the joiner and
cleared (the source clears the slot only after a successful send, guarded
by `ws.readyState === OPEN`). -/
def handleJoin (B : Broker) (sid : Nat) (sess : Session) (createNew : Bool)
    (roomId : Option String) (gen : String) : Broker × List (Nat × SMsg) :=
  if createNew then
    let room : Room := { peers := [sid], peerIds := [(sid, "peer1")],
                         pendingOffer := none, pendingAnswer := none }
    let B1 := setSession B sid (some { sess with currentRoom := some gen })
    let B2 := setRoom B1 gen (some room)
    (B2, emitTo B2 sid (.joined gen (some "peer1") "sender" none))
  else
    match roomId with
    | some rid =>
      match B.rooms rid with
      | some room =>
        if 2 ≤ room.peers.length then
          (B, emitTo B sid (.error roomFullMsg))
        else
          let peers2 := room.peers ++ [sid]
          let pids2 := assocSet room.peerIds sid "peer2"
          let room1 : Room := { room with peers := peers2, peerIds := pids2 }
          let B2 := setRoom (setSession B sid (some { sess with currentRoom := some rid })) rid (some room1)
          let msgs := joinedBroadcast B2 rid pids2 peers2.length 0 peers2
          match room.pendingOffer with
          | some o =>
            if sess.writable then
              (setRoom B2 rid (some { room1 with pendingOffer := none }),
               msgs ++ [(sid, .offer o)])
            else (B2, msgs)
          | none => (B2, msgs)
      | none => (B, emitTo B sid (.error "Invalid or expired room"))
    | none => (B, emitTo B sid (.error "Invalid or expired room"))

/-- The `offer` branch of `handleSignaling`: forward to `room.peers[1]`
when it exists and is open, otherwise buffer in `pending_offer`. -/
def handleOffer (B : Broker) (sess : Session) (payload : Nat) : Broker × List (Nat × SMsg) :=
  match sess.currentRoom with
  | none => (B, [])
  | some rid =>
    match B.rooms rid with
    | none => (B, [])
    | some room =>
      match room.peers.get? 1 with
      | some r =>
        match B.sessions r with
        | some rs =>
          if rs.writable then (B, [(r, .offer payload)])
          else (setRoom B rid (some { room with pendingOffer := some payload }), [])
        | none => (setRoom B rid (some { room with pendingOffer := some payload }), [])
      | none => (setRoom B rid (some { room with pendingOffer := some payload }), [])

/-- The `answer` branch of `handleSignaling`: forward to `room.peers[0]`
when it exists and is open, otherwise buffer in `pending_answer`. -/
def handleAnswer (B : Broker) (sess : Session) (payload : Nat) : Broker × List (Nat × SMsg) :=
  match sess.currentRoom with
  | none => (B, [])
  | some rid =>
    match B.rooms rid with
    | none => (B, [])
    | some room =>
      match room.peers.get? 0 with
      | some snd =>
        match B.sessions snd with
        | some ss =>
          if ss.writable then (B, [(snd, .answer payload)])
          else (setRoom B rid (some { room with pendingAnswer := some payload }), [])
        | none => (setRoom B rid (some { room with pendingAnswer := some payload }), [])
      | none => (setRoom B rid (some { room with pendingAnswer := some payload }), [])

/-- The fall-through of `handleSignaling` for `ice-candidate`: forward to
every other open peer of the room; never buffered. -/
def handleIce (B : Broker) (sid : Nat) (sess : Session) (payload : Nat) :
    Broker × List (Nat × SMsg) :=
  match sess.currentRoom with
  | none => (B, [])
  | some rid =>
    match B.rooms rid with
    | none => (B, [])
    | some room =>
      (B, room.peers.filterMap (fun p =>
        if p = sid then none
        else
          match B.sessions p with
          | some s => if s.writable then some (p, SMsg.ice payload) else none
          | none => none))

/-- The `ws.on('close')` handler: drop the session; remove it from its
room's peer list, notify survivors with `peer-disconnected`, and delete the
room when it becomes empty. -/
def handleClose (B : Broker) (sid : Nat) : Broker × List (Nat × SMsg) :=
  match B.sessions sid with
  | none => (B, [])
  | some sess =>
    let B1 := setSession B sid none
    match sess.currentRoom with
    | none => (B1, [])
    | some rid =>
      match B.rooms rid with
      | none => (B1, [])
      | some room =>
        let peers2 := room.peers.filter (fun p => decide (p ≠ sid))
        let out := peers2.filterMap (fun p =>
          match B1.sessions p with
          | some s => if s.writable then some (p, SMsg.peerDisconnected) else none
          | none => none)
        if peers2.length = 0 then (setRoom B1 rid none, out)
        else (setRoom B1 rid (some { room with peers := peers2 }), out)

/-- The broker's reaction to one event (the `wss.on('connection')` message
dispatch of server.js; `ping`/`pong` and the expiry sweep do not touch room
or session state relevant to the claims). -/
def step (B : Broker) (e : Event) : Broker × List (Nat × SMsg) :=
  match e with
  | .connect sid =>
    let B1 := setSession B sid (some ⟨true, none⟩)
    (B1, [(sid, .connected)])
  | .join sid cn rid gen =>
    match B.sessions sid with
    | some s => handleJoin B sid s cn rid gen
    | none => (B, [])
  | .offer sid p =>
    match B.sessions sid with
    | some s => handleOffer B s p
    | none => (B, [])
  | .answer sid p =>
    match B.sessions sid with
    | some s => handleAnswer B s p
    | none => (B, [])
  | .ice sid p =>
    match B.sessions sid with
    | some s => handleIce B sid s p
    | none => (B, [])
  | .close sid => handleClose B sid
  | .setWritable sid w =>
    match B.sessions sid with
    | some s => (setSession B sid (some { s with writable := w }), [])
    | none => (B, [])

/-- The broker with no rooms and no connections. -/
def initBroker : Broker := ⟨fun _ => none, fun _ => none⟩

/-- Run the broker over a list of events, accumulating the outbound
message trace. -/
def runBroker (evs : List Event) : Broker × List (Nat × SMsg) :=
  evs.foldl (fun acc e =>
    let r := step acc.1 e
    (r.1, acc.2 ++ r.2)) (initBroker, [])

/-! ### Basic lemmas about the embedded maps and frames -/

lemma length_encodeChunkFrame (i t : Nat) (d : List Nat) :
    (encodeChunkFrame i t d).length = 13 + d.length := by
  simp [encodeChunkFrame, u32le]
  omega

/-- The byte count enqueued per chunk in the backpressure model matches the
actual frame built from the file slice. -/
lemma senderTick_frame_length (b : List Nat) (offset i t : Nat) :
    (encodeChunkFrame i t ((b.drop offset).take CHUNK_SIZE)).length
      = 13 + min CHUNK_SIZE (b.length - offset) := by
  simp [length_encodeChunkFrame, List.length_take, List.length_drop]

lemma assocGet_assocSet_self {α : Type} (m : List (Nat × α)) (k : Nat) (v : α) :
    assocGet (assocSet m k v) k = some v := by
  induction m with
  | nil => simp [assocSet, assocGet]
  | cons kv rest ih =>
    by_cases h : kv.1 = k
    · simp [assocSet, assocGet, h]
    · simp [assocSet, assocGet, h, ih]

lemma assocGet_assocSet_ne {α : Type} (m : List (Nat × α)) (k k2 : Nat) (v : α)
    (h : k2 ≠ k) : assocGet (assocSet m k v) k2 = assocGet m k2 := by
  induction m with
  | nil => simp [assocSet, assocGet, Ne.symm h]
  | cons kv rest ih =>
    by_cases hk : kv.1 = k
    · subst hk
      simp [assocSet, assocGet, Ne.symm h]
    · simp only [assocSet, if_neg hk]
      by_cases h2 : kv.1 = k2 <;> simp [assocGet, h2, ih]

lemma assocSet_fresh {α : Type} (m : List (Nat × α)) (k : Nat) (v : α)
    (h : ∀ kv ∈ m, kv.1 ≠ k) : assocSet m k v = m ++ [(k, v)] := by
  induction m with
  | nil => simp [assocSet]
  | cons kv rest ih =>
    simp only [assocSet, if_neg (h kv (by simp))]
    rw [ih (fun kv2 hm => h kv2 (by simp [hm]))]
    simp

lemma assocGet_eq_none {α : Type} (m : List (Nat × α)) (k : Nat) :
    assocGet m k = none ↔ ∀ kv ∈ m, kv.1 ≠ k := by
  induction m with
  | nil => simp [assocGet]
  | cons kv rest ih =>
    by_cases h : kv.1 = k <;> simp [assocGet, h, ih]

lemma assocGet_mem {α : Type} {m : List (Nat × α)} {k : Nat} {v : α}
    (h : assocGet m k = some v) : (k, v) ∈ m := by
  induction m with
  | nil => simp [assocGet] at h
  | cons kv rest ih =>
    by_cases hk : kv.1 = k
    · simp only [assocGet, if_pos hk] at h
      obtain ⟨k1, v1⟩ := kv
      cases h
      subst hk
      exact List.mem_cons_self _ _
    · simp only [assocGet, if_neg hk] at h
      exact List.mem_cons_of_mem _ (ih h)

@[simp] lemma setSession_rooms (B : Broker) (sid : Nat) (s : Option Session) :
    (setSession B sid s).rooms = B.rooms := rfl

@[simp] lemma setRoom_sessions (B : Broker) (c : String) (r : Option Room) :
    (setRoom B c r).sessions = B.sessions := rfl

lemma setRoom_rooms (B : Broker) (c : String) (r : Option Room) (c2 : String) :
    (setRoom B c r).rooms c2 = if c2 = c then r else B.rooms c2 := rfl

lemma setSession_sessions (B : Broker) (sid : Nat) (s : Option Session) (sid2 : Nat) :
    (setSession B sid s).sessions sid2 = if sid2 = sid then s else B.sessions sid2 := rfl

/-! ### C9: sender backpressure bound -/

lemma chanStep_bound (size : Nat) (s : SendState) (e : ChanEvent)
    (hs : s.buffered ≤ 1024 * 1024 + 13 + CHUNK_SIZE) :
    (chanStep size s e).buffered ≤ 1024 * 1024 + 13 + CHUNK_SIZE := by
  cases e with
  | tick =>
    show (senderTick size s).buffered ≤ _
    have hmin : min CHUNK_SIZE (size - s.offset) ≤ CHUNK_SIZE := Nat.min_le_left _ _
    unfold senderTick
    split_ifs with h1 h2
    all_goals first
      | exact hs
      | (dsimp only; omega)
  | drain n =>
    show (⟨s.offset, s.buffered - n⟩ : SendState).buffered ≤ _
    dsimp only
    omega

/-- C9 (amended): in the sender's chunk loop, a chunk is sent only when the
buffered-bytes counter is at most 1 MiB — otherwise the loop defers and
re-checks without advancing — and hence the outstanding buffered bytes never
exceed `1 MiB + 13 + CHUNK_SIZE`: each enqueued frame is the 13-byte binary
header plus at most `CHUNK_SIZE` payload bytes. -/
theorem C9_backpressure_amended :
    (∀ size : Nat, ∀ s : SendState, 1024 * 1024 < s.buffered → senderTick size s = s) ∧
    (∀ size : Nat, ∀ evs : List ChanEvent,
      (chanRun size evs).buffered ≤ 1024 * 1024 + 13 + CHUNK_SIZE) := by
  constructor
  · intro size s h
    unfold senderTick
    split_ifs <;> rfl
  · intro size evs
    have main : ∀ (l : List ChanEvent) (s : SendState),
        s.buffered ≤ 1024 * 1024 + 13 + CHUNK_SIZE →
        (l.foldl (chanStep size) s).buffered ≤ 1024 * 1024 + 13 + CHUNK_SIZE := by
      intro l
      induction l with
      | nil => intro s hs; simpa using hs
      | cons e rest ih =>
        intro s hs
        simpa using ih (chanStep size s e) (chanStep_bound size s e hs)
    exact main evs ⟨0, 0⟩ (by simp [CHUNK_SIZE])

/-- Witness for C9 (amended): a loop body with 2 000 000 buffered bytes
defers, and a 16-tick schedule stays within the bound. -/
theorem C9_backpressure_amended_witness :
    senderTick 5 ⟨0, 2000000⟩ = ⟨0, 2000000⟩ ∧
    (chanRun 1179648 (List.replicate 16 ChanEvent.tick)).buffered
      ≤ 1024 * 1024 + 13 + CHUNK_SIZE :=
  ⟨C9_backpressure_amended.1 5 ⟨0, 2000000⟩ (by decide),
   C9_backpressure_amended.2 1179648 (List.replicate 16 ChanEvent.tick)⟩

/-- C9 counterexample: for an 18-chunk (1 179 648-byte) file, the transport
can drain the buffer to exactly 1 MiB right before a loop tick; the tick
then sends a full framed chunk (13-byte header + 65 536 payload bytes),
pushing the buffered counter to 1 048 576 + 65 549 = 1 114 125 bytes, which
exceeds the claimed `1 MiB + CHUNK_SIZE` bound (by the 13 header bytes). -/
theorem C9_counterexample :
    (chanRun 1179648 (List.replicate 16 ChanEvent.tick ++ [ChanEvent.drain 208, ChanEvent.tick])).buffered
        = 1114125 ∧
    1024 * 1024 + CHUNK_SIZE < 1114125 := by
  constructor
  · decide
  · decide

/-! ### C10: the zero-byte file -/

lemma senderFrames_nil (name : String) :
    senderFrames name [] = [Frame.metadata name 0, Frame.chunk 0 0 [], Frame.complete (some 0)] := by
  rw [senderFrames, sendLoop]
  norm_num [CHUNK_SIZE, totalChunksOf]

/-- C10: for a zero-byte file the sender computes `total_chunks = 0` yet
still emits one `0x01` chunk frame with index 0, total 0 and empty data;
the receiver drops that frame as out of range without state change or ack,
and on `file-complete` it still produces an empty artifact with no error,
so the round trip for the empty file succeeds. -/
theorem C10_empty_file :
    totalChunksOf 0 = 0 ∧
    senderFrames "empty.bin" []
      = [Frame.metadata "empty.bin" 0, Frame.chunk 0 0 [], Frame.complete (some 0)] ∧
    handleChunkWithSequence (handleFileMetadata Receiver.init "empty.bin" 0) 0 0 []
      = (handleFileMetadata Receiver.init "empty.bin" 0, none) ∧
    (recvRun Receiver.init (senderFrames "empty.bin" [])).2 = [([], false)] := by
  refine ⟨by decide, senderFrames_nil _, rfl, ?_⟩
  rw [senderFrames_nil]
  rfl

/-! ### C4: duplicate suppression at the receiver -/

lemma recvRun_append (st : Receiver) (fs gs : List Frame) :
    recvRun st (fs ++ gs)
      = ((recvRun (recvRun st fs).1 gs).1,
         (recvRun st fs).2 ++ (recvRun (recvRun st fs).1 gs).2) := by
  induction fs generalizing st with
  | nil => simp [recvRun]
  | cons f fs ih =>
    simp only [List.cons_append, recvRun, List.append_eq]
    rw [ih ((recvFrame st f).1)]
    simp [List.append_assoc]

/-- A chunk frame whose index was already received leaves the whole
receiver state unchanged (duplicate branch, out-of-range branch and
no-current-file branch alike). -/
lemma handleChunk_state_of_mem (st : Receiver) (i t : Nat) (d : List Nat)
    (h : i ∈ st.receivedChunkIndices) :
    (handleChunkWithSequence st i t d).1 = st := by
  cases hc : st.currentFile with
  | none => simp [handleChunkWithSequence, hc]
  | some f =>
    simp only [handleChunkWithSequence, hc]
    split_ifs <;> rfl

/-- C4: a chunk frame whose index is already in `received_indices` (and in
range) is answered with a `chunk-ack` but changes no receiver state; a frame
with index out of `[0, total_chunks)` is dropped without ack or state
change; and inserting such a duplicate anywhere into a frame sequence leaves
both the receiver state and every produced artifact unchanged, so the
reassembled output equals that of receiving each chunk exactly once. -/
theorem C4_chunk_idempotence :
    (∀ (st : Receiver) (i t : Nat) (d : List Nat),
      st.currentFile.isSome → i < t → i ∈ st.receivedChunkIndices →
      handleChunkWithSequence st i t d = (st, some i)) ∧
    (∀ (st : Receiver) (i t : Nat) (d : List Nat),
      t ≤ i → handleChunkWithSequence st i t d = (st, none)) ∧
    (∀ (st : Receiver) (fs gs : List Frame) (i t : Nat) (d : List Nat),
      i ∈ (recvRun st fs).1.receivedChunkIndices →
      recvRun st (fs ++ Frame.chunk i t d :: gs) = recvRun st (fs ++ gs)) := by
  refine ⟨?_, ?_, ?_⟩
  · intro st i t d hsome hlt hmem
    obtain ⟨f, hf⟩ := Option.isSome_iff_exists.mp hsome
    simp only [handleChunkWithSequence, hf]
    rw [if_neg (Nat.not_le.mpr hlt), if_pos hmem]
  · intro st i t d hle
    cases hc : st.currentFile with
    | none => simp [handleChunkWithSequence, hc]
    | some f => simp [handleChunkWithSequence, hc, hle]
  · intro st fs gs i t d hmem
    rw [recvRun_append, recvRun_append st fs gs]
    have hstep : recvRun (recvRun st fs).1 (Frame.chunk i t d :: gs)
        = recvRun (recvRun st fs).1 gs := by
      simp only [recvRun, recvFrame, handleChunk_state_of_mem _ _ _ _ hmem]
      simp
    rw [hstep]

/-- Witness for C4: after storing chunk 1 of a 4-chunk file, a duplicate of
chunk 1 only re-acks, an index-7 frame is dropped, and replaying the
duplicate before `file-complete` changes nothing. -/
theorem C4_chunk_idempotence_witness :
    handleChunkWithSequence
        (recvRun Receiver.init [Frame.metadata "f" 200000, Frame.chunk 1 4 [5]]).1 1 4 [9]
      = ((recvRun Receiver.init [Frame.metadata "f" 200000, Frame.chunk 1 4 [5]]).1, some 1) ∧
    handleChunkWithSequence
        (recvRun Receiver.init [Frame.metadata "f" 200000, Frame.chunk 1 4 [5]]).1 7 4 [9]
      = ((recvRun Receiver.init [Frame.metadata "f" 200000, Frame.chunk 1 4 [5]]).1, none) ∧
    recvRun Receiver.init
        ([Frame.metadata "f" 200000, Frame.chunk 1 4 [5]] ++ Frame.chunk 1 4 [9] :: [Frame.complete (some 4)])
      = recvRun Receiver.init
        ([Frame.metadata "f" 200000, Frame.chunk 1 4 [5]] ++ [Frame.complete (some 4)]) :=
  ⟨C4_chunk_idempotence.1 _ 1 4 [9] (by decide) (by decide) (by decide),
   C4_chunk_idempotence.2.1 _ 7 4 [9] (by decide),
   C4_chunk_idempotence.2.2 _ _ _ 1 4 [9] (by decide)⟩

/-! ### C1: round-trip machinery -/

/-- The `CHUNK_SIZE`-sized slices of a byte list, as produced by the
sender's successive `file.slice(offset, offset + CHUNK_SIZE)` reads (empty
for the empty file, whose degenerate frame C10 treats separately). -/
def sliceChunks (b : List Nat) : List (List Nat) :=
  if h : b = [] then [] else b.take CHUNK_SIZE :: sliceChunks (b.drop CHUNK_SIZE)
termination_by b.length
decreasing_by
  have hp : 0 < b.length := List.length_pos.mpr h
  simp only [List.length_drop]
  unfold CHUNK_SIZE
  omega

lemma sliceChunks_nil : sliceChunks [] = [] := by
  rw [sliceChunks]
  rfl

lemma sliceChunks_eq (b : List Nat) (h : b ≠ []) :
    sliceChunks b = b.take CHUNK_SIZE :: sliceChunks (b.drop CHUNK_SIZE) := by
  rw [sliceChunks]
  simp [h]

lemma sliceChunks_ne_nil (b : List Nat) (h : b ≠ []) : sliceChunks b ≠ [] := by
  rw [sliceChunks_eq b h]
  simp

lemma sliceChunks_flatten (b : List Nat) : (sliceChunks b).flatten = b := by
  have main : ∀ (n : Nat) (b : List Nat), b.length ≤ n → (sliceChunks b).flatten = b := by
    intro n
    induction n with
    | zero =>
      intro b hb
      have : b = [] := List.eq_nil_of_length_eq_zero (Nat.le_zero.mp hb)
      subst this
      simp [sliceChunks_nil]
    | succ n ih =>
      intro b hb
      by_cases h : b = []
      · subst h; simp [sliceChunks_nil]
      · rw [sliceChunks_eq b h]
        simp only [List.flatten_cons]
        rw [ih (b.drop CHUNK_SIZE) ?_, List.take_append_drop]
        have hp : 0 < b.length := List.length_pos.mpr h
        simp only [List.length_drop]
        unfold CHUNK_SIZE
        omega
  exact main b.length b le_rfl

lemma sliceChunks_length (b : List Nat) (h : b ≠ []) :
    (sliceChunks b).length = totalChunksOf b.length := by
  have main : ∀ (n : Nat) (b : List Nat), b.length ≤ n → b ≠ [] →
      (sliceChunks b).length = totalChunksOf b.length := by
    intro n
    induction n with
    | zero =>
      intro b hb hne
      exact absurd (List.eq_nil_of_length_eq_zero (Nat.le_zero.mp hb)) hne
    | succ n ih =>
      intro b hb hne
      have hp : 0 < b.length := List.length_pos.mpr hne
      rw [sliceChunks_eq b hne]
      by_cases hdrop : b.drop CHUNK_SIZE = []
      · have hle : b.length ≤ CHUNK_SIZE := by
          have := congrArg List.length hdrop
          simp only [List.length_drop, List.length_nil] at this
          omega
        rw [hdrop, sliceChunks_nil]
        simp only [List.length_cons, List.length_nil]
        unfold totalChunksOf CHUNK_SIZE at *
        omega
      · have hgt : CHUNK_SIZE < b.length := by
          by_contra hc
          exact hdrop (List.drop_eq_nil_of_le (by omega))
        have hdl : (b.drop CHUNK_SIZE).length ≤ n := by
          simp only [List.length_drop]
          unfold CHUNK_SIZE at *
          omega
        rw [List.length_cons, ih (b.drop CHUNK_SIZE) hdl hdrop]
        simp only [List.length_drop]
        unfold totalChunksOf CHUNK_SIZE at *
        omega
  exact main b.length b le_rfl h

lemma totalChunksOf_pos (size : Nat) (h : 0 < size) : 0 < totalChunksOf size := by
  unfold totalChunksOf CHUNK_SIZE
  omega

/-- The chunk frames of the sender, indexed from `idx`. -/
def chunkFrames (total : Nat) : Nat → List (List Nat) → List Frame
  | _, [] => []
  | idx, c :: cs => Frame.chunk idx total c :: chunkFrames total (idx + 1) cs

/-- The sender's loop, started anywhere strictly inside the file, is the
chunk frames of the remaining slices followed by `file-complete`. -/
lemma sendLoop_eq (b : List Nat) (total offset idx : Nat) (hoff : offset < b.length) :
    sendLoop b total offset idx
      = chunkFrames total idx (sliceChunks (b.drop offset)) ++ [Frame.complete (some total)] := by
  have main : ∀ (n : Nat) (offset idx : Nat), b.length - offset ≤ n → offset < b.length →
      sendLoop b total offset idx
        = chunkFrames total idx (sliceChunks (b.drop offset)) ++ [Frame.complete (some total)] := by
    intro n
    induction n with
    | zero => intro offset idx hn hoff; omega
    | succ n ih =>
      intro offset idx hn hoff
      have hne : b.drop offset ≠ [] := by
        intro hh
        have := congrArg List.length hh
        simp only [List.length_drop, List.length_nil] at this
        omega
      rw [sendLoop, sliceChunks_eq _ hne]
      have hdd : (b.drop offset).drop CHUNK_SIZE = b.drop (offset + CHUNK_SIZE) := by
        rw [List.drop_drop]
      by_cases hc : offset + CHUNK_SIZE < b.length
      · rw [if_pos hc]
        simp only [chunkFrames, List.cons_append]
        rw [hdd, ih (offset + CHUNK_SIZE) (idx + 1) (by unfold CHUNK_SIZE at *; omega) hc]
      · rw [if_neg hc]
        have hdrop2 : (b.drop offset).drop CHUNK_SIZE = [] := by
          apply List.drop_eq_nil_of_le
          simp only [List.length_drop]
          unfold CHUNK_SIZE at *
          omega
        rw [hdrop2, sliceChunks_nil]
        simp [chunkFrames]
  exact main (b.length - offset) offset idx le_rfl hoff

/-- `chunkMap` contents after storing slices `cs` at indices starting
from `k`. -/
def enumChunks : Nat → List (List Nat) → List (Nat × List Nat)
  | _, [] => []
  | k, c :: cs => (k, c) :: enumChunks (k + 1) cs

lemma assocGet_enumChunks (cs : List (List Nat)) :
    ∀ k i, assocGet (enumChunks k cs) (k + i) = cs.get? i := by
  induction cs with
  | nil => intro k i; simp [enumChunks, assocGet]
  | cons c cs ih =>
    intro k i
    cases i with
    | zero => simp [enumChunks, assocGet]
    | succ j =>
      simp only [enumChunks, assocGet]
      rw [if_neg (by omega)]
      rw [show k + (j + 1) = (k + 1) + j by omega, ih (k + 1) j]
      rfl

lemma enumChunks_length (cs : List (List Nat)) : ∀ k, (enumChunks k cs).length = cs.length := by
  induction cs with
  | nil => intro k; rfl
  | cons c cs ih => intro k; simp [enumChunks, ih]

lemma enumChunks_map_len (cs : List (List Nat)) :
    ∀ k, (enumChunks k cs).map (fun kv => kv.2.length) = cs.map List.length := by
  induction cs with
  | nil => intro k; rfl
  | cons c cs ih => intro k; simp [enumChunks, ih]

/-- Feeding the in-order chunk frames `cs` (indices from `k`) into a
receiver that has already stored exactly the indices below `k` stores every
slice at its index and counts its bytes; no artifact is produced. -/
lemma recvRun_chunkFrames (f : RFile) (e0 : Nat) :
    ∀ (cs : List (List Nat)) (total k : Nat) (m : List (Nat × List Nat)) (by0 : Nat),
      (∀ kv ∈ m, kv.1 < k) → k + cs.length ≤ total →
      recvRun ⟨some f, m, List.range k, [], e0, by0⟩ (chunkFrames total k cs)
        = (⟨some f, m ++ enumChunks k cs, List.range (k + cs.length), [], e0,
            by0 + (cs.map List.length).sum⟩, []) := by
  intro cs
  induction cs with
  | nil =>
    intro total k m by0 hfresh hk
    simp [chunkFrames, recvRun, enumChunks]
  | cons c cs ih =>
    intro total k m by0 hfresh hk
    have hstep : handleChunkWithSequence ⟨some f, m, List.range k, [], e0, by0⟩ k total c
        = (⟨some f, m ++ [(k, c)], List.range (k + 1), [], e0, by0 + c.length⟩, some k) := by
      simp only [handleChunkWithSequence]
      rw [if_neg (by simp only [List.length_cons] at hk; omega)]
      rw [if_neg (by simp [List.mem_range])]
      rw [assocSet_fresh m k c (fun kv hm => Nat.ne_of_lt (hfresh kv hm))]
      simp [setAdd, List.mem_range, List.range_succ]
    simp only [chunkFrames, recvRun, recvFrame, hstep]
    rw [ih total (k + 1) (m ++ [(k, c)]) (by0 + c.length) ?_ ?_]
    · rw [show (k + 1) + cs.length = k + (c :: cs).length by simp; omega]
      simp [enumChunks, List.append_assoc, Nat.add_assoc]
    · intro kv hkv
      rcases List.mem_append.mp hkv with hm | hm
      · exact Nat.lt_succ_of_lt (hfresh kv hm)
      · simp at hm
        subst hm
        exact Nat.lt_succ_self k
    · simp only [List.length_cons] at hk
      omega

/-- When every index below `cs.length` is stored, reassembly returns
exactly the stored slices (no placeholder is taken). -/
lemma reassembleChunks_enum (cs : List (List Nat)) (size : Nat) :
    reassembleChunks (enumChunks 0 cs) size cs.length = cs := by
  apply List.ext_get?
  intro n
  simp only [reassembleChunks, List.get?_map]
  by_cases hn : n < cs.length
  · rw [List.get?_range hn]
    have hget := assocGet_enumChunks cs 0 n
    rw [Nat.zero_add, List.get?_eq_get hn] at hget
    simp [hget, List.get?_eq_get hn]
  · have h1 : (List.range cs.length).get? n = none := by
      simp [List.get?_eq_none, Nat.le_of_not_lt hn]
    rw [h1]
    simp [List.get?_eq_none, Nat.le_of_not_lt hn]

/-- `file-complete` on a receiver that stored every slice of a nonempty
file reassembles the original bytes, surfaces no error, and resets the
per-file state. -/
lemma handleFileComplete_full (nm : String) (b : List Nat) (e0 by0 : Nat) (hb : b ≠ []) :
    handleFileComplete
        ⟨some ⟨nm, b.length⟩, enumChunks 0 (sliceChunks b),
          List.range (sliceChunks b).length, [], e0, by0⟩
        (some (totalChunksOf b.length))
      = (⟨none, [], [], [], 0, by0⟩, some (b, false)) := by
  have hpos : 0 < b.length := List.length_pos.mpr hb
  have htot : 0 < totalChunksOf b.length := totalChunksOf_pos _ hpos
  have hlen : (sliceChunks b).length = totalChunksOf b.length := sliceChunks_length b hb
  have hmaplen : (enumChunks 0 (sliceChunks b)).length = (sliceChunks b).length :=
    enumChunks_length _ 0
  simp only [handleFileComplete, hmaplen, hlen]
  rw [if_neg (by omega : ¬ totalChunksOf b.length = 0)]
  rw [if_pos htot, if_pos htot]
  rw [← hlen, reassembleChunks_enum (sliceChunks b) b.length, sliceChunks_flatten]
  simp

/-- C1: for every file, transmitting it through the sender (metadata, the
`0x01` chunk frames, `file-complete`) and feeding those frames in order to
the receiver reassembles exactly the original bytes with no completion
error, and just before `file-complete` the lengths of the stored chunks sum
to the declared size. -/
theorem C1_roundtrip (name : String) (b : List Nat) :
    (recvRun Receiver.init (senderFrames name b)).2 = [(b, false)] ∧
    ((recvRun Receiver.init (senderFrames name b).dropLast).1.chunkMap.map
        (fun kv => kv.2.length)).sum = b.length := by
  by_cases hb : b = []
  · subst hb
    constructor
    · rw [senderFrames_nil]
      rfl
    · rw [senderFrames_nil]
      rfl
  · have hpos : 0 < b.length := List.length_pos.mpr hb
    have hsend : senderFrames name b
        = Frame.metadata name b.length ::
          (chunkFrames (totalChunksOf b.length) 0 (sliceChunks b)
            ++ [Frame.complete (some (totalChunksOf b.length))]) := by
      unfold senderFrames
      rw [sendLoop_eq b (totalChunksOf b.length) 0 0 hpos, List.drop_zero]
    have hst0 : handleFileMetadata Receiver.init name b.length
        = ⟨some ⟨name, b.length⟩, [], List.range 0, [], totalChunksOf b.length, 0⟩ := by
      simp [handleFileMetadata]
    have hchunks := recvRun_chunkFrames ⟨name, b.length⟩ (totalChunksOf b.length)
        (sliceChunks b) (totalChunksOf b.length) 0 [] 0 (by simp)
        (by rw [sliceChunks_length b hb]; omega)
    simp only [List.nil_append, Nat.zero_add] at hchunks
    constructor
    · rw [hsend]
      simp only [recvRun, recvFrame]
      rw [hst0, recvRun_append, hchunks]
      simp only [recvRun, recvFrame]
      rw [handleFileComplete_full name b _ _ hb]
      simp
    · rw [hsend]
      have hdl : (Frame.metadata name b.length ::
            (chunkFrames (totalChunksOf b.length) 0 (sliceChunks b)
              ++ [Frame.complete (some (totalChunksOf b.length))])).dropLast
          = Frame.metadata name b.length ::
            chunkFrames (totalChunksOf b.length) 0 (sliceChunks b) := by
        rw [← List.cons_append, List.dropLast_concat]
      rw [hdl]
      simp only [recvRun, recvFrame]
      rw [hst0, hchunks]
      simp only []
      rw [enumChunks_map_len]
      rw [← List.length_flatten, sliceChunks_flatten]

/-! ### C5: missing-chunk degradation -/

lemma reassembleChunks_get? (m : List (Nat × List Nat)) (size expected i : Nat)
    (h : i < expected) :
    (reassembleChunks m size expected).get? i
      = some (match assocGet m i with
          | some c => c
          | none => List.replicate (placeholderLen size expected i) 0) := by
  simp only [reassembleChunks, List.get?_map]
  rw [List.get?_range h]
  rfl

lemma placeholderLen_mid (size expected i : Nat) (h : i < expected - 1) :
    placeholderLen size expected i = CHUNK_SIZE := by
  unfold placeholderLen
  rw [if_neg (by omega)]

/-- On the final position the source's `size % CHUNK_SIZE || CHUNK_SIZE`
equals the declared size's remainder in the `1 … CHUNK_SIZE` sense of §4.2
(the last chunk holds `size − (total−1)·CHUNK_SIZE` bytes). -/
lemma placeholderLen_last (size expected : Nat) (hpos : 0 < size)
    (hE : expected = totalChunksOf size) :
    placeholderLen size expected (expected - 1) = size - (expected - 1) * CHUNK_SIZE := by
  subst hE
  unfold placeholderLen totalChunksOf CHUNK_SIZE
  rw [if_pos rfl]
  split_ifs with h
  · omega
  · omega

lemma sum_placeholderLen (size : Nat) (hpos : 0 < size) :
    ((List.range (totalChunksOf size)).map (placeholderLen size (totalChunksOf size))).sum
      = size := by
  have hTpos : 0 < totalChunksOf size := totalChunksOf_pos _ hpos
  have hsplit : List.range (totalChunksOf size)
      = List.range (totalChunksOf size - 1) ++ [totalChunksOf size - 1] := by
    rw [← List.range_succ]
    congr 1
    omega
  rw [hsplit, List.map_append, List.sum_append]
  have hmid : ((List.range (totalChunksOf size - 1)).map
      (placeholderLen size (totalChunksOf size))).sum
      = (totalChunksOf size - 1) * CHUNK_SIZE := by
    rw [List.map_congr_left
      (fun i hi => placeholderLen_mid size (totalChunksOf size) i (List.mem_range.mp hi))]
    simp [List.map_const', List.sum_replicate, smul_eq_mul]
  rw [hmid]
  simp only [List.map_cons, List.map_nil, List.sum_cons, List.sum_nil]
  rw [placeholderLen_last size (totalChunksOf size) hpos rfl]
  have hle : (totalChunksOf size - 1) * CHUNK_SIZE < size := by
    unfold totalChunksOf CHUNK_SIZE
    omega
  omega

lemma length_lt_of_missing (m : List (Nat × List Nat)) (expected i0 : Nat)
    (hnd : (m.map Prod.fst).Nodup) (hsub : ∀ kv ∈ m, kv.1 < expected)
    (hi0 : i0 < expected) (hmiss : assocGet m i0 = none) :
    m.length < expected := by
  have hne : ∀ kv ∈ m, kv.1 ≠ i0 := (assocGet_eq_none m i0).mp hmiss
  have hsubF : (m.map Prod.fst).toFinset ⊆ (Finset.range expected).erase i0 := by
    intro x hx
    rw [List.mem_toFinset] at hx
    obtain ⟨kv, hkv, rfl⟩ := List.mem_map.mp hx
    exact Finset.mem_erase.mpr ⟨hne kv hkv, Finset.mem_range.mpr (hsub kv hkv)⟩
  have hcard := Finset.card_le_card hsubF
  rw [List.toFinset_card_of_nodup hnd] at hcard
  rw [Finset.card_erase_of_mem (Finset.mem_range.mpr hi0), Finset.card_range] at hcard
  have hlm : (m.map Prod.fst).length = m.length := by simp
  omega

/-- C5 counterexample: declared size 100 000 (2 chunks), no chunk frame at
all arrives, then `file-complete{total_chunks: 2}`.  Every index of
`[0, 2)` is absent, so the claim prescribes a 100 000-byte zero-filled
artifact; but `chunkMap.size > 0` fails, the receiver takes the legacy
branch, and it delivers the empty artifact (the error is still surfaced). -/
theorem C5_counterexample :
    (recvRun Receiver.init [Frame.metadata "f" 100000, Frame.complete (some 2)]).2
      = [([], true)] := by
  rfl

/-- C5 (amended): on `file-complete` with at least one chunk stored and an
index of `[0, expected)` missing, the receiver still produces and delivers
a reassembled artifact, surfaces a completion error, and substitutes for
each missing position a zero-filled placeholder of the expected length for
that position — `CHUNK_SIZE` for non-final indices, the declared size's
remainder (`size − (expected−1)·CHUNK_SIZE`, i.e. `CHUNK_SIZE` when
`CHUNK_SIZE` divides the size) for the final index — so that when every
stored chunk has its expected length the artifact still has the declared
size.  (When no chunk at all is stored the legacy branch runs instead:
see the counterexample.) -/
theorem C5_missing_chunk_amended (st : Receiver) (f : RFile) (expected : Nat)
    (hf : st.currentFile = some f)
    (hm : 0 < st.chunkMap.length)
    (hE : expected = totalChunksOf f.size) (hpos : 0 < f.size) :
    (handleFileComplete st (some expected)).2
        = some ((reassembleChunks st.chunkMap f.size expected).flatten,
                decide (st.chunkMap.length < expected)) ∧
    (∀ i, i < expected → assocGet st.chunkMap i = none →
      (reassembleChunks st.chunkMap f.size expected).get? i
        = some (List.replicate (placeholderLen f.size expected i) 0)) ∧
    (∀ i, i < expected - 1 → placeholderLen f.size expected i = CHUNK_SIZE) ∧
    placeholderLen f.size expected (expected - 1) = f.size - (expected - 1) * CHUNK_SIZE ∧
    ((st.chunkMap.map Prod.fst).Nodup → (∀ kv ∈ st.chunkMap, kv.1 < expected) →
      ∀ i0, i0 < expected → assocGet st.chunkMap i0 = none →
        decide (st.chunkMap.length < expected) = true) ∧
    ((∀ kv ∈ st.chunkMap, kv.2.length = placeholderLen f.size expected kv.1) →
      (reassembleChunks st.chunkMap f.size expected).flatten.length = f.size) := by
  have hEpos : 0 < expected := hE ▸ totalChunksOf_pos _ hpos
  refine ⟨?_, ?_, ?_, ?_, ?_, ?_⟩
  · simp only [handleFileComplete, hf]
    simp [show ¬ expected = 0 by omega, hm]
  · intro i hi hnone
    rw [reassembleChunks_get? _ _ _ _ hi]
    simp [hnone]
  · intro i hi
    exact placeholderLen_mid f.size expected i hi
  · exact placeholderLen_last f.size expected hpos hE
  · intro hnd hsub i0 hi0 hmiss
    exact decide_eq_true (length_lt_of_missing st.chunkMap expected i0 hnd hsub hi0 hmiss)
  · intro hlen
    have hmaps : (reassembleChunks st.chunkMap f.size expected).map List.length
        = (List.range expected).map (placeholderLen f.size expected) := by
      simp only [reassembleChunks, List.map_map]
      apply List.map_congr_left
      intro i hi
      simp only [Function.comp]
      cases hg : assocGet st.chunkMap i with
      | some c => simpa [hg] using hlen (i, c) (assocGet_mem hg)
      | none => simp [hg]
    rw [List.length_flatten, hmaps, hE]
    exact sum_placeholderLen f.size hpos

/-- Witness for C5 (amended): one stored chunk of a 100 000-byte,
2-chunk file; the artifact is delivered with an error flagged, and the
final-position placeholder is the 34 464-byte remainder. -/
theorem C5_missing_chunk_amended_witness :
    (handleFileComplete (recvRun Receiver.init
        [Frame.metadata "f" 100000, Frame.chunk 0 2 [1, 2, 3]]).1 (some 2)).2
      = some ((reassembleChunks (recvRun Receiver.init
            [Frame.metadata "f" 100000, Frame.chunk 0 2 [1, 2, 3]]).1.chunkMap
            100000 2).flatten,
          decide ((recvRun Receiver.init
            [Frame.metadata "f" 100000, Frame.chunk 0 2 [1, 2, 3]]).1.chunkMap.length < 2)) ∧
    placeholderLen 100000 2 (2 - 1) = 100000 - (2 - 1) * CHUNK_SIZE :=
  ⟨(C5_missing_chunk_amended _ ⟨"f", 100000⟩ 2 rfl (by decide) (by decide) (by decide)).1,
   (C5_missing_chunk_amended (recvRun Receiver.init
        [Frame.metadata "f" 100000, Frame.chunk 0 2 [1, 2, 3]]).1
      ⟨"f", 100000⟩ 2 rfl (by decide) (by decide) (by decide)).2.2.2.1⟩

/-! ### Broker room-evolution lemmas -/

lemma handleIce_fst (B : Broker) (sid : Nat) (s : Session) (p : Nat) :
    (handleIce B sid s p).1 = B := by
  unfold handleIce
  repeat' split
  all_goals rfl

/-- `offer` handling leaves every room unchanged except possibly writing
`pending_offer` of the sender's current room. -/
lemma handleOffer_rooms (B : Broker) (s : Session) (p : Nat) (c : String) :
    (handleOffer B s p).1.rooms c = B.rooms c ∨
    (∃ room, B.rooms c = some room ∧
      (handleOffer B s p).1.rooms c = some { room with pendingOffer := some p }) := by
  unfold handleOffer
  cases hcr : s.currentRoom with
  | none => left; rfl
  | some rid =>
    cases hrm : B.rooms rid with
    | none => simp only [hrm]; left; trivial
    | some room =>
      simp only [hrm]
      by_cases hc : c = rid
      · subst hc
        cases hg : room.peers.get? 1 with
        | some rcv =>
          simp only [hg]
          cases hsr : B.sessions rcv with
          | some rs =>
            simp only [hsr]
            by_cases hw : rs.writable = true
            · rw [if_pos hw]; left; rfl
            · rw [if_neg hw]
              right
              exact ⟨room, hrm, by rw [setRoom_rooms, if_pos rfl]⟩
          | none =>
            simp only [hsr]
            right
            exact ⟨room, hrm, by rw [setRoom_rooms, if_pos rfl]⟩
        | none =>
          simp only [hg]
          right
          exact ⟨room, hrm, by rw [setRoom_rooms, if_pos rfl]⟩
      · have hro : ∀ v : Option Room, (setRoom B rid v).rooms c = B.rooms c := by
          intro v; rw [setRoom_rooms, if_neg hc]
        cases hg : room.peers.get? 1 with
        | some rcv =>
          simp only [hg]
          cases hsr : B.sessions rcv with
          | some rs =>
            simp only [hsr]
            by_cases hw : rs.writable = true
            · rw [if_pos hw]; left; rfl
            · rw [if_neg hw]; left; exact hro _
          | none => simp only [hsr]; left; exact hro _
        | none => simp only [hg]; left; exact hro _

/-- `answer` handling leaves every room unchanged except possibly writing
`pending_answer` of the sender's current room. -/
lemma handleAnswer_rooms (B : Broker) (s : Session) (p : Nat) (c : String) :
    (handleAnswer B s p).1.rooms c = B.rooms c ∨
    (∃ room, B.rooms c = some room ∧
      (handleAnswer B s p).1.rooms c = some { room with pendingAnswer := some p }) := by
  unfold handleAnswer
  cases hcr : s.currentRoom with
  | none => left; rfl
  | some rid =>
    cases hrm : B.rooms rid with
    | none => simp only [hrm]; left; trivial
    | some room =>
      simp only [hrm]
      by_cases hc : c = rid
      · subst hc
        cases hg : room.peers.get? 0 with
        | some snd =>
          simp only [hg]
          cases hsr : B.sessions snd with
          | some ss =>
            simp only [hsr]
            by_cases hw : ss.writable = true
            · rw [if_pos hw]; left; rfl
            · rw [if_neg hw]
              right
              exact ⟨room, hrm, by rw [setRoom_rooms, if_pos rfl]⟩
          | none =>
            simp only [hsr]
            right
            exact ⟨room, hrm, by rw [setRoom_rooms, if_pos rfl]⟩
        | none =>
          simp only [hg]
          right
          exact ⟨room, hrm, by rw [setRoom_rooms, if_pos rfl]⟩
      · have hro : ∀ v : Option Room, (setRoom B rid v).rooms c = B.rooms c := by
          intro v; rw [setRoom_rooms, if_neg hc]
        cases hg : room.peers.get? 0 with
        | some snd =>
          simp only [hg]
          cases hsr : B.sessions snd with
          | some ss =>
            simp only [hsr]
            by_cases hw : ss.writable = true
            · rw [if_pos hw]; left; rfl
            · rw [if_neg hw]; left; exact hro _
          | none => simp only [hsr]; left; exact hro _
        | none => simp only [hg]; left; exact hro _

/-- `join` leaves every room unchanged except: a create installs a fresh
one-peer room under the generated code (overwriting any room with that
code), and a join of a non-full room appends the joiner (possibly clearing
`pending_offer`); `pending_answer` is never touched. -/
lemma handleJoin_rooms (B : Broker) (sid : Nat) (sess : Session) (cn : Bool)
    (rid0 : Option String) (gen : String) (c : String) :
    (handleJoin B sid sess cn rid0 gen).1.rooms c = B.rooms c ∨
    (cn = true ∧ c = gen ∧
      (handleJoin B sid sess cn rid0 gen).1.rooms c
        = some ⟨[sid], [(sid, "peer1")], none, none⟩) ∨
    (∃ room po, B.rooms c = some room ∧ room.peers.length < 2 ∧
      (handleJoin B sid sess cn rid0 gen).1.rooms c
        = some ⟨room.peers ++ [sid], assocSet room.peerIds sid "peer2", po,
            room.pendingAnswer⟩) := by
  unfold handleJoin
  by_cases hcn : cn = true
  · rw [if_pos hcn]
    by_cases hc : c = gen
    · subst hc
      right; left
      refine ⟨hcn, rfl, ?_⟩
      show (setRoom _ _ _).rooms _ = _
      rw [setRoom_rooms, if_pos rfl]
    · left
      show (setRoom _ _ _).rooms _ = _
      rw [setRoom_rooms, if_neg hc]
      rfl
  · rw [if_neg hcn]
    cases rid0 with
    | none => left; rfl
    | some rid =>
      cases hrm : B.rooms rid with
      | none => simp only [hrm]; left; trivial
      | some room =>
        simp only [hrm]
        by_cases hfull : 2 ≤ room.peers.length
        · rw [if_pos hfull]; left; rfl
        · rw [if_neg hfull]
          cases hpo : room.pendingOffer with
          | some o =>
            dsimp only
            by_cases hw : sess.writable = true
            · rw [if_pos hw]
              by_cases hc : c = rid
              · subst hc
                right; right
                refine ⟨room, none, hrm, by omega, ?_⟩
                show (setRoom _ _ _).rooms _ = _
                rw [setRoom_rooms, if_pos rfl]
              · left
                show (setRoom _ _ _).rooms _ = _
                rw [setRoom_rooms, if_neg hc, setRoom_rooms, if_neg hc]
                rfl
            · rw [if_neg hw]
              by_cases hc : c = rid
              · subst hc
                right; right
                refine ⟨room, some o, hrm, by omega, ?_⟩
                show (setRoom _ _ _).rooms _ = _
                rw [setRoom_rooms, if_pos rfl]
              · left
                show (setRoom _ _ _).rooms _ = _
                rw [setRoom_rooms, if_neg hc]
                rfl
          | none =>
            dsimp only
            by_cases hc : c = rid
            · subst hc
              right; right
              refine ⟨room, none, hrm, by omega, ?_⟩
              show (setRoom _ _ _).rooms _ = _
              rw [setRoom_rooms, if_pos rfl]
            · left
              show (setRoom _ _ _).rooms _ = _
              rw [setRoom_rooms, if_neg hc]
              rfl

/-- `close` leaves every room unchanged except the closing session's room,
which either loses that peer or is deleted when it empties. -/
lemma handleClose_rooms (B : Broker) (sid : Nat) (c : String) :
    (handleClose B sid).1.rooms c = B.rooms c ∨
    (handleClose B sid).1.rooms c = none ∨
    (∃ room, B.rooms c = some room ∧
      (handleClose B sid).1.rooms c
        = some { room with peers := room.peers.filter (fun q => decide (q ≠ sid)) }) := by
  unfold handleClose
  cases hs : B.sessions sid with
  | none => left; rfl
  | some sess =>
    simp only
    cases hcr : sess.currentRoom with
    | none => left; rfl
    | some rid =>
      cases hrm : B.rooms rid with
      | none => simp only [hrm]; left; trivial
      | some room =>
        simp only [hrm]
        by_cases hc : c = rid
        · subst hc
          by_cases hz : (room.peers.filter (fun q => decide (q ≠ sid))).length = 0
          · rw [if_pos hz]
            right; left
            show (setRoom _ _ _).rooms _ = _
            rw [setRoom_rooms, if_pos rfl]
          · rw [if_neg hz]
            right; right
            refine ⟨room, hrm, ?_⟩
            show (setRoom _ _ _).rooms _ = _
            rw [setRoom_rooms, if_pos rfl]
        · by_cases hz : (room.peers.filter (fun q => decide (q ≠ sid))).length = 0
          · rw [if_pos hz]
            left
            show (setRoom _ _ _).rooms _ = _
            rw [setRoom_rooms, if_neg hc]
            rfl
          · rw [if_neg hz]
            left
            show (setRoom _ _ _).rooms _ = _
            rw [setRoom_rooms, if_neg hc]
            rfl

/-- How one broker step can change one room: unchanged, deleted, replaced
by a fresh one-peer room (create, including the collision overwrite), a
pending slot written, a peer appended to a non-full room, or a peer
filtered out. -/
lemma step_rooms_cases (B : Broker) (e : Event) (c : String) :
    (step B e).1.rooms c = B.rooms c ∨
    (step B e).1.rooms c = none ∨
    (∃ sid gen ro, e = Event.join sid true ro gen ∧ c = gen ∧
      (step B e).1.rooms c = some ⟨[sid], [(sid, "peer1")], none, none⟩) ∨
    (∃ room, B.rooms c = some room ∧
      ((∃ p, (step B e).1.rooms c = some { room with pendingOffer := some p }) ∨
       (∃ sid p, e = Event.answer sid p ∧
         (step B e).1.rooms c = some { room with pendingAnswer := some p }) ∨
       (∃ sid po, room.peers.length < 2 ∧
         (step B e).1.rooms c
           = some ⟨room.peers ++ [sid], assocSet room.peerIds sid "peer2", po,
               room.pendingAnswer⟩) ∨
       (∃ sid, (step B e).1.rooms c
           = some { room with peers := room.peers.filter (fun q => decide (q ≠ sid)) }))) := by
  cases e with
  | connect sid => left; rfl
  | setWritable sid w =>
    simp only [step]
    cases B.sessions sid
    · left; rfl
    · left; rfl
  | ice sid p =>
    simp only [step]
    cases hs : B.sessions sid
    · left; rfl
    · rw [handleIce_fst]; left; rfl
  | offer sid p =>
    simp only [step]
    cases hs : B.sessions sid with
    | none => left; rfl
    | some s =>
      rcases handleOffer_rooms B s p c with h | ⟨room, hr, h⟩
      · left; exact h
      · right; right; right
        exact ⟨room, hr, Or.inl ⟨p, h⟩⟩
  | answer sid p =>
    simp only [step]
    cases hs : B.sessions sid with
    | none => left; rfl
    | some s =>
      rcases handleAnswer_rooms B s p c with h | ⟨room, hr, h⟩
      · left; exact h
      · right; right; right
        exact ⟨room, hr, Or.inr (Or.inl ⟨sid, p, rfl, h⟩)⟩
  | close sid =>
    rcases handleClose_rooms B sid c with h | h | ⟨room, hr, h⟩
    · left; exact h
    · right; left; exact h
    · right; right; right
      exact ⟨room, hr, Or.inr (Or.inr (Or.inr ⟨sid, h⟩))⟩
  | join sid cn rid0 gen =>
    simp only [step]
    cases hs : B.sessions sid with
    | none => left; rfl
    | some s =>
      rcases handleJoin_rooms B sid s cn rid0 gen c with h | ⟨hcn, hcg, h⟩ | ⟨room, po, hr, hlt, h⟩
      · left; exact h
      · right; right; left
        subst hcn
        exact ⟨sid, gen, rid0, rfl, hcg, h⟩
      · right; right; right
        exact ⟨room, hr, Or.inr (Or.inr (Or.inl ⟨sid, po, hlt, h⟩))⟩

/-! ### C3: room capacity -/

lemma step_capacity (B : Broker) (e : Event)
    (h : ∀ c r, B.rooms c = some r → r.peers.length ≤ 2) :
    ∀ c r, (step B e).1.rooms c = some r → r.peers.length ≤ 2 := by
  intro c r hr
  rcases step_rooms_cases B e c with hcase | hcase | ⟨sid, gen, ro, _, _, hcase⟩ |
    ⟨room, hroom, ⟨p, hcase⟩ | ⟨sid, p, _, hcase⟩ | ⟨sid, po, hlt, hcase⟩ | ⟨sid, hcase⟩⟩
  · rw [hcase] at hr
    exact h c r hr
  · rw [hcase] at hr
    exact Option.noConfusion hr
  · rw [hcase] at hr
    cases hr
    simp
  · rw [hcase] at hr
    cases hr
    simpa using h c room hroom
  · rw [hcase] at hr
    cases hr
    simpa using h c room hroom
  · rw [hcase] at hr
    cases hr
    simp only [List.length_append, List.length_cons, List.length_nil]
    omega
  · rw [hcase] at hr
    cases hr
    have hle := List.length_filter_le (fun q => decide (q ≠ sid)) room.peers
    have h2 := h c room hroom
    simp only
    omega

lemma runBroker_capacity (evs : List Event) :
    ∀ c room, (runBroker evs).1.rooms c = some room → room.peers.length ≤ 2 := by
  unfold runBroker
  have main : ∀ (l : List Event) (acc : Broker × List (Nat × SMsg)),
      (∀ c r, acc.1.rooms c = some r → r.peers.length ≤ 2) →
      ∀ c r, ((l.foldl (fun acc e =>
          let r := step acc.1 e
          (r.1, acc.2 ++ r.2)) acc).1).rooms c = some r → r.peers.length ≤ 2 := by
    intro l
    induction l with
    | nil => intro acc hacc; simpa using hacc
    | cons e rest ih =>
      intro acc hacc
      simp only [List.foldl_cons]
      exact ih ((step acc.1 e).1, acc.2 ++ (step acc.1 e).2) (step_capacity acc.1 e hacc)
  exact main evs (initBroker, []) (fun c r hr => Option.noConfusion hr)

/-- Joining a full room replies `error` and changes nothing: the broker
state (rooms and sessions) is untouched and the joiner stays connected. -/
lemma join_full_refused (B : Broker) (sid : Nat) (sess : Session) (rid gen : String)
    (room : Room) (hs : B.sessions sid = some sess) (hw : sess.writable = true)
    (hr : B.rooms rid = some room) (hfull : 2 ≤ room.peers.length) :
    step B (Event.join sid false (some rid) gen) = (B, [(sid, SMsg.error roomFullMsg)]) := by
  simp only [step, hs]
  unfold handleJoin
  rw [if_neg (by decide : ¬(false = true))]
  simp only [hr]
  rw [if_pos hfull]
  simp [emitTo, hs, hw]

/-- C3: in every broker state reachable from the initial state, every room
has at most 2 peers; and a join targeting a room that already has 2 peers
is answered with the room-full error while the whole broker state — the
room's peer list and the joining session included — is left unchanged. -/
theorem C3_capacity_invariant :
    (∀ (evs : List Event) (c : String) (room : Room),
      (runBroker evs).1.rooms c = some room → room.peers.length ≤ 2) ∧
    (∀ (B : Broker) (sid : Nat) (sess : Session) (rid gen : String) (room : Room),
      B.sessions sid = some sess → sess.writable = true →
      B.rooms rid = some room → 2 ≤ room.peers.length →
      step B (Event.join sid false (some rid) gen) = (B, [(sid, SMsg.error roomFullMsg)])) :=
  ⟨runBroker_capacity, join_full_refused⟩

/-- Concrete broker for the full-room scenario: room `WORKIN` holds
sessions 0 and 1; session 2 is connected but roomless. -/
def fullRoomBroker : Broker :=
  { rooms := fun c =>
      if c = "WORKIN" then some ⟨[0, 1], [(0, "peer1"), (1, "peer2")], none, none⟩ else none
    sessions := fun sid =>
      if sid = 0 then some ⟨true, some "WORKIN"⟩
      else if sid = 1 then some ⟨true, some "WORKIN"⟩
      else if sid = 2 then some ⟨true, none⟩ else none }

/-- Witness for C3: a third join on the full room `WORKIN` is refused with
the error reply and the broker state is unchanged. -/
theorem C3_capacity_invariant_witness :
    step fullRoomBroker (Event.join 2 false (some "WORKIN") "GGGGGG")
      = (fullRoomBroker, [(2, SMsg.error roomFullMsg)]) :=
  C3_capacity_invariant.2 fullRoomBroker 2 ⟨true, none⟩ "WORKIN" "GGGGGG"
    ⟨[0, 1], [(0, "peer1"), (1, "peer2")], none, none⟩ rfl rfl rfl (by decide)

/-! ### C2: handshake ordering through pending_offer -/

/-- An `offer` sent while no receiver is attached (`room.peers[1]` absent)
emits nothing and is buffered in `pending_offer`. -/
lemma offer_buffered_when_alone (B : Broker) (s : Nat) (ssess : Session) (rid : String)
    (room : Room) (o : Nat)
    (hss : B.sessions s = some ssess) (hsr : ssess.currentRoom = some rid)
    (hr : B.rooms rid = some room) (hpeers : room.peers.get? 1 = none) :
    step B (Event.offer s o)
      = (setRoom B rid (some { room with pendingOffer := some o }), []) := by
  simp only [step, hss]
  unfold handleOffer
  simp only [hsr, hr, hpeers]

/-- A receiver joining a one-peer room with a buffered offer gets exactly
`joined` then the offer (in that order, the offer once), and the slot is
cleared. -/
lemma handleJoin_pendingOffer_delivery (B : Broker) (j s : Nat) (jsess : Session)
    (rid gen : String) (room : Room) (o : Nat)
    (hjs : B.sessions j = some jsess) (hw : jsess.writable = true)
    (hr : B.rooms rid = some room) (hpeers : room.peers = [s])
    (hpo : room.pendingOffer = some o) (hne : j ≠ s) :
    (((step B (Event.join j false (some rid) gen)).2.filter
        (fun m => decide (m.1 = j))).map Prod.snd
      = [SMsg.joined rid (some "peer2") "receiver" (some 2), SMsg.offer o]) ∧
    (step B (Event.join j false (some rid) gen)).1.rooms rid
      = some ⟨[s, j], assocSet room.peerIds j "peer2", none, room.pendingAnswer⟩ := by
  constructor
  · simp only [step, hjs]
    unfold handleJoin
    rw [if_neg (by decide : ¬(false = true))]
    simp only [hr]
    rw [if_neg (by simp [hpeers])]
    simp only [hpo]
    rw [if_pos hw]
    simp only [hpeers]
    cases hBs : B.sessions s with
    | none =>
      simp [joinedBroadcast, hBs, setSession_sessions, Ne.symm hne,
        assocGet_assocSet_self, hw]
    | some ss =>
      by_cases hsw : ss.writable = true <;>
        simp [joinedBroadcast, hBs, setSession_sessions, Ne.symm hne,
          assocGet_assocSet_self, hw, hsw]
  · simp only [step, hjs]
    unfold handleJoin
    rw [if_neg (by decide : ¬(false = true))]
    simp only [hr]
    rw [if_neg (by simp [hpeers])]
    simp only [hpo]
    rw [if_pos hw]
    simp [setRoom_rooms, hpeers]

/-- C2: if the sender emits `offer` before the receiver has attached, the
offer is buffered in `pending_offer` with nothing delivered; after the
receiver's successful join, the receiver's message trace is exactly
`joined` strictly before `offer`, the offer is delivered exactly once, and
`pending_offer` is cleared on that delivery. -/
theorem C2_handshake_ordering (B : Broker) (s j : Nat) (ssess jsess : Session)
    (rid gen : String) (room : Room) (o : Nat)
    (hss : B.sessions s = some ssess) (hsr : ssess.currentRoom = some rid)
    (hjs : B.sessions j = some jsess) (hw : jsess.writable = true)
    (hr : B.rooms rid = some room) (hpeers : room.peers = [s])
    (hne : j ≠ s) :
    step B (Event.offer s o)
      = (setRoom B rid (some { room with pendingOffer := some o }), []) ∧
    (((step (setRoom B rid (some { room with pendingOffer := some o }))
        (Event.join j false (some rid) gen)).2.filter
          (fun m => decide (m.1 = j))).map Prod.snd
      = [SMsg.joined rid (some "peer2") "receiver" (some 2), SMsg.offer o]) ∧
    ((step (setRoom B rid (some { room with pendingOffer := some o }))
        (Event.join j false (some rid) gen)).1.rooms rid).map Room.pendingOffer
      = some none := by
  have h1 := offer_buffered_when_alone B s ssess rid room o hss hsr hr (by rw [hpeers]; rfl)
  have h2 := handleJoin_pendingOffer_delivery
    (setRoom B rid (some { room with pendingOffer := some o })) j s jsess rid gen
    { room with pendingOffer := some o } o hjs hw
    (by rw [setRoom_rooms, if_pos rfl]) hpeers rfl hne
  exact ⟨h1, h2.1, by rw [h2.2]; rfl⟩

/-- Concrete broker for the pending-offer scenario: session 5 created room
`ROOMAA` and is alone in it; session 7 is connected but roomless. -/
def pendingOfferBroker : Broker :=
  { rooms := fun c => if c = "ROOMAA" then some ⟨[5], [(5, "peer1")], none, none⟩ else none
    sessions := fun sid =>
      if sid = 5 then some ⟨true, some "ROOMAA"⟩
      else if sid = 7 then some ⟨true, none⟩ else none }

/-- Witness for C2 at the concrete broker. -/
theorem C2_handshake_ordering_witness :
    step pendingOfferBroker (Event.offer 5 42)
      = (setRoom pendingOfferBroker "ROOMAA" (some ⟨[5], [(5, "peer1")], some 42, none⟩), []) ∧
    (((step (setRoom pendingOfferBroker "ROOMAA" (some ⟨[5], [(5, "peer1")], some 42, none⟩))
        (Event.join 7 false (some "ROOMAA") "GGGGGG")).2.filter
          (fun m => decide (m.1 = 7))).map Prod.snd
      = [SMsg.joined "ROOMAA" (some "peer2") "receiver" (some 2), SMsg.offer 42]) ∧
    ((step (setRoom pendingOfferBroker "ROOMAA" (some ⟨[5], [(5, "peer1")], some 42, none⟩))
        (Event.join 7 false (some "ROOMAA") "GGGGGG")).1.rooms "ROOMAA").map Room.pendingOffer
      = some none :=
  C2_handshake_ordering pendingOfferBroker 5 7 ⟨true, some "ROOMAA"⟩ ⟨true, none⟩
    "ROOMAA" "GGGGGG" ⟨[5], [(5, "peer1")], none, none⟩ 42
    rfl rfl rfl rfl rfl rfl (by decide)

/-! ### C6: pending-slot discipline -/

/-- Trace: 0 creates `AAAAAA`, 1 joins, 0 goes half-open (not writable),
1 sends an answer (buffered), 0 closes, 2 reconnects into the room. -/
def pendingAnswerEvents : List Event :=
  [Event.connect 0, Event.join 0 true none "AAAAAA",
   Event.connect 1, Event.join 1 false (some "AAAAAA") "ZZZZZZ",
   Event.setWritable 0 false,
   Event.answer 1 77,
   Event.close 0,
   Event.connect 2, Event.join 2 false (some "AAAAAA") "YYYYYY"]

/-- C6 counterexample: an answer buffered in `pending_answer` while the
sender's transport was down is never delivered — after the original sender
closes and a new peer joins (the "reconnection"), the slot still holds the
frame and no `answer` message was ever emitted to anyone in the whole
trace, contradicting "cleared when its frame is delivered (the
later-arriving peer or reconnection drains it)". -/
theorem C6_counterexample :
    ((runBroker pendingAnswerEvents).1.rooms "AAAAAA").map Room.pendingAnswer
      = some (some 77) ∧
    (runBroker pendingAnswerEvents).2.all
      (fun m => decide (m.2 ≠ SMsg.answer 77)) = true := by
  constructor
  · decide
  · decide

/-- C6 (amended): `pending_offer` and `pending_answer` are single slots
(at most one frame each, by construction); an `offer` whose destination
peer (`peers[1]`) is absent or not writable is buffered in `pending_offer`
with nothing emitted, and symmetrically an `answer` whose destination
(`peers[0]`) is absent or not writable is buffered in `pending_answer`;
`pending_offer` is delivered to the joining receiver exactly once, after
`joined`, and cleared on that delivery; but `pending_answer` is never
delivered or cleared by any broker event — a step can only leave it
unchanged, overwrite it with a newly buffered answer, or reset it by
replacing the whole room (create-collision); it disappears only with the
room. -/
theorem C6_pending_slots_amended :
    (∀ (B : Broker) (s : Nat) (ssess : Session) (rid : String) (room : Room) (o : Nat),
      B.sessions s = some ssess → ssess.currentRoom = some rid → B.rooms rid = some room →
      (∀ rcv, room.peers.get? 1 = some rcv →
        ∀ rs, B.sessions rcv = some rs → rs.writable = false) →
      step B (Event.offer s o)
        = (setRoom B rid (some { room with pendingOffer := some o }), [])) ∧
    (∀ (B : Broker) (s : Nat) (ssess : Session) (rid : String) (room : Room) (a : Nat),
      B.sessions s = some ssess → ssess.currentRoom = some rid → B.rooms rid = some room →
      (∀ snd, room.peers.get? 0 = some snd →
        ∀ ss, B.sessions snd = some ss → ss.writable = false) →
      step B (Event.answer s a)
        = (setRoom B rid (some { room with pendingAnswer := some a }), [])) ∧
    (∀ (B : Broker) (j s : Nat) (jsess : Session) (rid gen : String) (room : Room) (o : Nat),
      B.sessions j = some jsess → jsess.writable = true →
      B.rooms rid = some room → room.peers = [s] → room.pendingOffer = some o → j ≠ s →
      (((step B (Event.join j false (some rid) gen)).2.filter
          (fun m => decide (m.1 = j))).map Prod.snd
        = [SMsg.joined rid (some "peer2") "receiver" (some 2), SMsg.offer o]) ∧
      ((step B (Event.join j false (some rid) gen)).1.rooms rid).map Room.pendingOffer
        = some none) ∧
    (∀ (B : Broker) (e : Event) (rid : String) (room room2 : Room),
      B.rooms rid = some room → (step B e).1.rooms rid = some room2 →
      room2.pendingAnswer = room.pendingAnswer ∨
      (∃ sid p, e = Event.answer sid p ∧ room2.pendingAnswer = some p) ∨
      (∃ sid ro, e = Event.join sid true ro rid ∧ room2.pendingAnswer = none)) := by
  refine ⟨?_, ?_, ?_, ?_⟩
  · intro B s ssess rid room o hss hsr hr hdest
    simp only [step, hss]
    unfold handleOffer
    simp only [hsr, hr]
    cases hg : room.peers.get? 1 with
    | none => simp only [hg]
    | some rcv =>
      simp only [hg]
      cases hbs : B.sessions rcv with
      | none => simp only [hbs]
      | some rs =>
        simp only [hbs]
        rw [if_neg (by simp [hdest rcv hg rs hbs])]
  · intro B s ssess rid room a hss hsr hr hdest
    simp only [step, hss]
    unfold handleAnswer
    simp only [hsr, hr]
    cases hg : room.peers.get? 0 with
    | none => simp only [hg]
    | some snd =>
      simp only [hg]
      cases hbs : B.sessions snd with
      | none => simp only [hbs]
      | some ss =>
        simp only [hbs]
        rw [if_neg (by simp [hdest snd hg ss hbs])]
  · intro B j s jsess rid gen room o hjs hw hr hpeers hpo hne
    have h := handleJoin_pendingOffer_delivery B j s jsess rid gen room o hjs hw hr hpeers hpo hne
    exact ⟨h.1, by rw [h.2]; rfl⟩
  · intro B e rid room room2 hr hr2
    rcases step_rooms_cases B e rid with hcase | hcase | ⟨sid, gen, ro, he, hcg, hcase⟩ |
      ⟨room', hroom', ⟨p, hcase⟩ | ⟨sid, p, he, hcase⟩ | ⟨sid, po, hlt, hcase⟩ | ⟨sid, hcase⟩⟩
    · rw [hcase, hr] at hr2
      cases hr2
      left; rfl
    · rw [hcase] at hr2
      exact Option.noConfusion hr2
    · rw [hcase] at hr2
      cases hr2
      right; right
      subst hcg
      exact ⟨sid, ro, he, rfl⟩
    · rw [hcase] at hr2
      cases hr2
      rw [hroom'] at hr
      cases hr
      left; rfl
    · rw [hcase] at hr2
      cases hr2
      right; left
      exact ⟨sid, p, he, rfl⟩
    · rw [hcase] at hr2
      cases hr2
      rw [hroom'] at hr
      cases hr
      left; rfl
    · rw [hcase] at hr2
      cases hr2
      rw [hroom'] at hr
      cases hr
      left; rfl

/-- Broker with a two-peer room whose sender transport (session 3) is
half-open. -/
def pendingAnswerBroker : Broker :=
  { rooms := fun c =>
      if c = "ROOMBB" then some ⟨[3, 4], [(3, "peer1"), (4, "peer2")], none, none⟩ else none
    sessions := fun sid =>
      if sid = 3 then some ⟨false, some "ROOMBB"⟩
      else if sid = 4 then some ⟨true, some "ROOMBB"⟩ else none }

/-- Witness for C6 (amended): an offer is buffered when the room has no
second peer, and an answer is buffered when `peers[0]` is not writable. -/
theorem C6_pending_slots_amended_witness :
    step pendingOfferBroker (Event.offer 5 42)
      = (setRoom pendingOfferBroker "ROOMAA" (some ⟨[5], [(5, "peer1")], some 42, none⟩), []) ∧
    step pendingAnswerBroker (Event.answer 4 77)
      = (setRoom pendingAnswerBroker "ROOMBB"
          (some ⟨[3, 4], [(3, "peer1"), (4, "peer2")], none, some 77⟩), []) := by
  constructor
  · exact C6_pending_slots_amended.1 pendingOfferBroker 5 ⟨true, some "ROOMAA"⟩ "ROOMAA"
      ⟨[5], [(5, "peer1")], none, none⟩ 42 rfl rfl rfl
      (by
        intro rcv hg rs hbs
        rw [show ([5] : List Nat).get? 1 = none from rfl] at hg
        exact Option.noConfusion hg)
  · exact C6_pending_slots_amended.2.1 pendingAnswerBroker 4 ⟨true, some "ROOMBB"⟩ "ROOMBB"
      ⟨[3, 4], [(3, "peer1"), (4, "peer2")], none, none⟩ 77 rfl rfl rfl
      (by
        intro snd hg ss hbs
        injection hg with h1
        subst h1
        injection hbs with h2
        subst h2
        rfl)

/-! ### C7: role reporting -/

/-- Trace: 0 creates `AAAAAA`, 1 joins (reported receiver), 0 disconnects,
2 joins the surviving room — and the original joiner 1 is re-reported as
sender. -/
def roleFlipEvents : List Event :=
  [Event.connect 0, Event.join 0 true none "AAAAAA",
   Event.connect 1, Event.join 1 false (some "AAAAAA") "ZZZZZZ",
   Event.close 0,
   Event.connect 2, Event.join 2 false (some "AAAAAA") "YYYYYY"]

/-- C7 counterexample: session 1 — which joined the room, never created
one — is reported `receiver` at its own join and later `sender` after the
creator disconnects and a third session joins, so the joiner is not
reported receiver in every joined message and its reported role changes
over its lifetime. -/
theorem C7_counterexample :
    (1, SMsg.joined "AAAAAA" (some "peer2") "receiver" (some 2))
      ∈ (runBroker roleFlipEvents).2 ∧
    (1, SMsg.joined "AAAAAA" (some "peer2") "sender" (some 2))
      ∈ (runBroker roleFlipEvents).2 := by
  constructor <;> decide

/-- C7 (amended): joined-message roles are positional, not historical —
whenever some session joins a one-peer room, the current occupant of
index 0 (whether it is the creator or a surviving joiner) is reported
`sender` and the newly appended peer is reported `receiver`.  While both
original peers stay attached this yields creator = sender and
joiner = receiver; after the creator detaches, the surviving joiner is
re-reported sender on the next join. -/
theorem C7_roles_amended (B : Broker) (sid p : Nat) (sess psess : Session)
    (rid gen : String) (room : Room) (pid : String)
    (hs : B.sessions sid = some sess) (hw : sess.writable = true)
    (hp : B.sessions p = some psess) (hpw : psess.writable = true)
    (hr : B.rooms rid = some room) (hpeers : room.peers = [p])
    (hpid : assocGet room.peerIds p = some pid)
    (hne : p ≠ sid) :
    (p, SMsg.joined rid (some pid) "sender" (some 2))
      ∈ (step B (Event.join sid false (some rid) gen)).2 ∧
    (sid, SMsg.joined rid (some "peer2") "receiver" (some 2))
      ∈ (step B (Event.join sid false (some rid) gen)).2 := by
  have hg1 : assocGet (assocSet room.peerIds sid "peer2") p = some pid := by
    rw [assocGet_assocSet_ne _ _ _ _ hne]
    exact hpid
  have hg2 : assocGet (assocSet room.peerIds sid "peer2") sid = some "peer2" :=
    assocGet_assocSet_self _ _ _
  simp only [step, hs]
  unfold handleJoin
  rw [if_neg (by decide : ¬(false = true))]
  simp only [hr]
  rw [if_neg (by simp [hpeers])]
  cases hpo : room.pendingOffer with
  | some o =>
    dsimp only
    by_cases hjw : sess.writable = true
    · rw [if_pos hjw]
      constructor <;> (apply List.mem_append_left) <;>
        simp [joinedBroadcast, hpeers, setSession_sessions, hp, hpw, hne, Ne.symm hne,
          hg1, hg2, hw]
    · rw [if_neg hjw]
      constructor <;>
        simp [joinedBroadcast, hpeers, setSession_sessions, hp, hpw, hne, Ne.symm hne,
          hg1, hg2, hw]
  | none =>
    dsimp only
    constructor <;>
      simp [joinedBroadcast, hpeers, setSession_sessions, hp, hpw, hne, Ne.symm hne,
        hg1, hg2, hw]

/-- Witness for C7 (amended): session 7 joins room `ROOMAA` whose only
occupant is 5; 5 is reported sender, 7 receiver. -/
theorem C7_roles_amended_witness :
    (5, SMsg.joined "ROOMAA" (some "peer1") "sender" (some 2))
      ∈ (step pendingOfferBroker (Event.join 7 false (some "ROOMAA") "GGGGGG")).2 ∧
    (7, SMsg.joined "ROOMAA" (some "peer2") "receiver" (some 2))
      ∈ (step pendingOfferBroker (Event.join 7 false (some "ROOMAA") "GGGGGG")).2 :=
  C7_roles_amended pendingOfferBroker 7 5 ⟨true, none⟩ ⟨true, some "ROOMAA"⟩
    "ROOMAA" "GGGGGG" ⟨[5], [(5, "peer1")], none, none⟩ "peer1"
    rfl rfl rfl rfl rfl rfl rfl (by decide)

/-! ### C8: room-code collision on create -/

/-- Broker with an existing room `AAAAAA` (created by session 0) and a
fresh session 1 about to create a room while the RNG returns the colliding
code `AAAAAA`. -/
def collisionBroker : Broker :=
  { rooms := fun c => if c = "AAAAAA" then some ⟨[0], [(0, "peer1")], none, none⟩ else none
    sessions := fun sid =>
      if sid = 0 then some ⟨true, some "AAAAAA"⟩
      else if sid = 1 then some ⟨true, none⟩ else none }

/-- C8 (code bug): `handleJoin` calls `generateRoomCode()` once and does
`rooms.set(newRoomId, ...)` with no membership check, so on a collision the
existing room is silently replaced: its peer list `[0]` is discarded while
session 0 still points at the code.  The spec's "retry on the
astronomically unlikely collision" does not exist in the source. -/
theorem C8_collision_overwrites :
    collisionBroker.rooms "AAAAAA" = some ⟨[0], [(0, "peer1")], none, none⟩ ∧
    (step collisionBroker (Event.join 1 true none "AAAAAA")).1.rooms "AAAAAA"
      = some ⟨[1], [(1, "peer1")], none, none⟩ ∧
    (step collisionBroker (Event.join 1 true none "AAAAAA")).1.sessions 0
      = some ⟨true, some "AAAAAA"⟩ ∧
    (step collisionBroker (Event.join 1 true none "AAAAAA")).2
      = [(1, SMsg.joined "AAAAAA" (some "peer1") "sender" none)] := by
  refine ⟨rfl, ?_, ?_, ?_⟩ <;> decide
